import Mathlib

/-!
Verification of the date-range normalization and attribute-composition core of
`src/use/base.ts` (v-calendar `createBase` / `useBase`).

Instants are modelled as `Int` milliseconds since the epoch (`Date.getTime()`),
with the timezone resolution of the external `Locale` class abstracted away:
every date-like prop is given as a local day index plus an optional explicit
time-of-day in milliseconds, and the resolved instant is
`day * msPerDay + timeOfDay`.
-/

/-- An absolute instant: milliseconds since the epoch, as `Date.getTime()`. -/
abbrev Instant := Int

/-- Milliseconds per day. -/
def msPerDay : Int := 86400000

/-- Milliseconds offset of the time-of-day `00:00:00` (start of day). -/
def time000000 : Int := 0

/-- Milliseconds offset of the time-of-day `23:59:59` (end of day). -/
def time235959 : Int := 86399000

/-- A date-like value as supplied in a prop: a local day index plus an
optional explicit time-of-day (milliseconds from midnight). A "plain date"
carries no explicit time-of-day (`time = none`). -/
structure PlainDate where
  day : Int
  time : Option Int
deriving DecidableEq, Repr, Inhabited

/-- A date range `{ start, end }`; `none` on either side means open/unbounded
in that direction (`null` in the source). The source field `end` is named
`stop` here because `end` is reserved. -/
structure DateRange where
  start : Option Instant
  stop : Option Instant
deriving DecidableEq, Repr

/-- One entry of the `disabledDates` / `availableDates` props: an exact date
(possibly with a time-of-day) or a pre-built range object. -/
inductive DateSpec where
  | date (d : PlainDate)
  | range (s e : Option PlainDate)
deriving DecidableEq, Repr

/-- Modelled from the spec: `normalizeDate(spec, opts{ time? }) -> Instant`
of the external `Locale` class resolves a single date-like spec to an absolute
instant; if `time` is supplied and the spec carries no explicit time-of-day,
the given time-of-day is applied. -/
def Locale.normalizeDate (d : PlainDate) (time? : Option Int) : Instant :=
  d.day * msPerDay +
    match d.time with
    | some t => t
    | none => time?.getD 0

/-- Start-of-day instant of a date (used by all-day snapping). -/
def snapStart (d : PlainDate) : Instant := d.day * msPerDay

/-- End-of-day instant of a date, `23:59:59` (used by all-day snapping). -/
def snapEnd (d : PlainDate) : Instant := d.day * msPerDay + time235959

/-- Modelled from the spec: `normalizeDates(specs, opts{ isAllDay }) ->
DateRange[]` of the external `Locale` class maps a possibly absent list of
date specs to a list of ranges, one range per spec; `isAllDay = true` forces
each produced range's boundaries to start-of-day/end-of-day, `isAllDay = false`
preserves exact instants; an absent input produces an empty list. -/
def Locale.normalizeDates (specs : Option (List DateSpec)) (isAllDay : Bool) :
    List DateRange :=
  match specs with
  | none => []
  | some l =>
    l.map fun s =>
      match s with
      | .date d =>
        if isAllDay then { start := some (snapStart d), stop := some (snapEnd d) }
        else { start := some (Locale.normalizeDate d none),
               stop := some (Locale.normalizeDate d none) }
      | .range s e =>
        if isAllDay then { start := s.map snapStart, stop := e.map snapEnd }
        else { start := s.map (Locale.normalizeDate · none),
               stop := e.map (Locale.normalizeDate · none) }

/-- The locale prop: a pre-built `Locale` instance, a plain config object, a
string identifier, or absent (`props.locale` of `BaseProps`). -/
structure LocaleConfig where
  id : Option String
  firstDayOfWeek : Option Int
  masks : Option (List (String × String))
deriving DecidableEq, Repr

/-- Modelled from the spec: a built `Locale` instance remembers the config it
was built from and the timezone it resolves instants in (the locale dictionary
lookup is outside the modelled core). -/
structure LocaleInst where
  config : LocaleConfig
  timezone : Option String
deriving DecidableEq, Repr

/-- Modelled from the spec: `new Locale(config, { locales, timezone })`. -/
def Locale.new (config : LocaleConfig) (timezone : Option String) : LocaleInst :=
  { config := config, timezone := timezone }

/-- The value of `props.locale`: `string | Record | Locale`, or absent. -/
inductive LocaleProp where
  | inst (l : LocaleInst)
  | config (cfg : LocaleConfig)
  | str (id : String)
  | absent
deriving DecidableEq, Repr

/-- The props of `createBase` that the modelled core reads (`BaseProps`). -/
structure BaseProps where
  locale : LocaleProp
  firstDayOfWeek : Option Int
  masks : Option (List (String × String))
  timezone : Option String
  minDate : Option PlainDate
  minDateExact : Option PlainDate
  maxDate : Option PlainDate
  maxDateExact : Option PlainDate
  disabledDates : Option (List DateSpec)
  availableDates : Option (List DateSpec)
deriving DecidableEq, Repr

/-- The `locale` computed of `createBase`: return the prop if it is already a
`Locale` instance; otherwise build a config (the prop itself when it is an
object, else `{ id: props.locale, firstDayOfWeek, masks }`) and build a new
`Locale` from it with the timezone prop. -/
def computeLocale (p : BaseProps) : LocaleInst :=
  match p.locale with
  | .inst l => l
  | .config cfg => Locale.new cfg p.timezone
  | .str s =>
    Locale.new { id := some s, firstDayOfWeek := p.firstDayOfWeek, masks := p.masks }
      p.timezone
  | .absent =>
    Locale.new { id := none, firstDayOfWeek := p.firstDayOfWeek, masks := p.masks }
      p.timezone

/-- The `disabledDates` computed of `createBase`: normalize the user prop as
all-day ranges, then push `{ start: null, end: min - 1s }` when a minimum
boundary is present and `{ start: max + 1s, end: null }` when a maximum
boundary is present (exact variants taken directly, plain variants coerced to
`00:00:00` / `23:59:59`). -/
def disabledDates (p : BaseProps) : List DateRange :=
  let dates := Locale.normalizeDates p.disabledDates true
  let dates :=
    if p.minDateExact.isSome || p.minDate.isSome then
      let e :=
        match p.minDateExact with
        | some d => Locale.normalizeDate d none
        | none => Locale.normalizeDate p.minDate.get! (some time000000)
      dates ++ [{ start := none, stop := some (e - 1000) }]
    else dates
  if p.maxDateExact.isSome || p.maxDate.isSome then
    let s :=
      match p.maxDateExact with
      | some d => Locale.normalizeDate d none
      | none => Locale.normalizeDate p.maxDate.get! (some time235959)
    dates ++ [{ start := some (s + 1000), stop := none }]
  else dates

/-- The `availableDates` computed of `createBase`. -/
def availableDates (p : BaseProps) : List DateRange :=
  Locale.normalizeDates p.availableDates false

/-- Modelled from the spec: the composed `Attribute` object, keeping the
fields the interval algebra uses (the attached theme and locale references are
read-only styling lookups, outside the modelled core). -/
structure Attribute where
  key : String
  dates : List DateRange
  excludeDates : List DateRange
  excludeMode : String
  order : Int
deriving DecidableEq, Repr

/-- The `disabledAttribute` computed of `createBase`. -/
def disabledAttribute (p : BaseProps) : Attribute :=
  { key := "disabled"
    dates := disabledDates p
    excludeDates := availableDates p
    excludeMode := "includes"
    order := 100 }

/-- The published base context (theme, locale and masks are outside the
modelled interval core; the fields the claims read are kept). -/
structure BaseContext where
  disabledDates : List DateRange
  availableDates : List DateRange
  disabledAttribute : Attribute
deriving DecidableEq, Repr

/-- `useBase`: inject the context stored under the context key (modelled as an
optional injected value); return it when present, otherwise throw. -/
def useBase (injected : Option BaseContext) : Except String BaseContext :=
  match injected with
  | some context => Except.ok context
  | none =>
    Except.error
      "Base context missing. Please verify this component is nested within a valid context provider."

/-- Membership of an instant in a range: above the start when the start is
bounded and below the end when the end is bounded. -/
def inRange (t : Instant) (r : DateRange) : Bool :=
  (match r.start with
   | none => true
   | some s => decide (s ≤ t)) &&
  (match r.stop with
   | none => true
   | some e => decide (t ≤ e))

/-- The resolved minimum boundary instant, when a minimum boundary is present:
the exact variant taken directly, else the plain date coerced to `00:00:00`. -/
def minBoundary (p : BaseProps) : Option Instant :=
  if p.minDateExact.isSome || p.minDate.isSome then
    some
      (match p.minDateExact with
       | some d => Locale.normalizeDate d none
       | none => Locale.normalizeDate p.minDate.get! (some time000000))
  else none

/-- The resolved maximum boundary instant, when a maximum boundary is present:
the exact variant taken directly, else the plain date coerced to `23:59:59`. -/
def maxBoundary (p : BaseProps) : Option Instant :=
  if p.maxDateExact.isSome || p.maxDate.isSome then
    some
      (match p.maxDateExact with
       | some d => Locale.normalizeDate d none
       | none => Locale.normalizeDate p.maxDate.get! (some time235959))
  else none

/-- The synthesized min-side exclusion range, as a (possibly empty) list. -/
def minPart (p : BaseProps) : List DateRange :=
  match minBoundary p with
  | some m => [{ start := none, stop := some (m - 1000) }]
  | none => []

/-- The synthesized max-side exclusion range, as a (possibly empty) list. -/
def maxPart (p : BaseProps) : List DateRange :=
  match maxBoundary p with
  | some x => [{ start := some (x + 1000), stop := none }]
  | none => []

theorem disabledDates_eq (p : BaseProps) :
    disabledDates p =
      Locale.normalizeDates p.disabledDates true ++ minPart p ++ maxPart p := by
  unfold disabledDates minPart maxPart minBoundary maxBoundary
  cases hme : p.minDateExact <;> cases hmd : p.minDate <;>
    cases hxe : p.maxDateExact <;> cases hxd : p.maxDate <;>
      simp [hme, hmd, hxe, hxd]


/-- Props with every optional prop absent, the base point for concrete tests. -/
def emptyProps : BaseProps :=
  { locale := .absent, firstDayOfWeek := none, masks := none, timezone := none
    minDate := none, minDateExact := none, maxDate := none, maxDateExact := none
    disabledDates := none, availableDates := none }

/-- Props with only a plain `minDate` (day 19792, no explicit time-of-day). -/
def propsPlainMin : BaseProps := { emptyProps with minDate := some ⟨19792, none⟩ }

/-- Props with `minDateExact` at instant 5000 and `maxDateExact` at instant 0:
an inverted boundary pair one resolved instant of which lands in the other
side's synthesized range. -/
def propsInverted : BaseProps :=
  { emptyProps with
    minDateExact := some ⟨0, some 5000⟩
    maxDateExact := some ⟨0, some 0⟩ }

/-- C1: when a minimum boundary is present the computation appends exactly one
synthesized min-side range `(null, m - 1s)` with `m` the resolved minimum
(exact value directly, plain `minDate` coerced to `00:00:00`), `m` lies outside
that min-side synthesized range, and for a plain `minDate` the range ends at
`23:59:59` of the preceding day. (Amended: `m` lies outside the min-side
synthesized range; when the boundaries invert it can still fall inside the
max-side one, see the counterexample.) -/
theorem base_C1_min_range (p : BaseProps)
    (h : p.minDateExact.isSome ∨ p.minDate.isSome) :
    ∃ m, minBoundary p = some m ∧
      disabledDates p =
        Locale.normalizeDates p.disabledDates true
          ++ [{ start := none, stop := some (m - 1000) }] ++ maxPart p ∧
      inRange m { start := none, stop := some (m - 1000) } = false ∧
      (∀ d, p.minDateExact = none → p.minDate = some d → d.time = none →
        m - 1000 = (d.day - 1) * msPerDay + time235959) := by
  rcases hme : p.minDateExact with _ | d
  · rcases hmd : p.minDate with _ | d'
    · rcases h with h | h <;> simp [hme, hmd] at h
    · refine ⟨Locale.normalizeDate d' (some time000000), ?_, ?_, ?_, ?_⟩
      · simp [minBoundary, hme, hmd]
      · rw [disabledDates_eq]
        simp [minPart, minBoundary, hme, hmd]
      · simp [inRange]
      · intro d _ hmd' ht
        obtain rfl : d' = d := Option.some.inj hmd'
        simp only [Locale.normalizeDate, ht, time000000, msPerDay, time235959,
          Option.getD]
        ring
  · refine ⟨Locale.normalizeDate d none, ?_, ?_, ?_, ?_⟩
    · simp [minBoundary, hme]
    · rw [disabledDates_eq]
      simp [minPart, minBoundary, hme]
    · simp [inRange]
    · intro d' hne _ _
      simp at hne

/-- Witness for C1 at the concrete plain `minDate` props. -/
theorem base_C1_min_range_witness :
    (propsPlainMin.minDateExact.isSome ∨ propsPlainMin.minDate.isSome) ∧
      (∃ m, minBoundary propsPlainMin = some m ∧
        disabledDates propsPlainMin =
          Locale.normalizeDates propsPlainMin.disabledDates true
            ++ [{ start := none, stop := some (m - 1000) }] ++ maxPart propsPlainMin ∧
        inRange m { start := none, stop := some (m - 1000) } = false ∧
        (∀ d, propsPlainMin.minDateExact = none → propsPlainMin.minDate = some d →
          d.time = none → m - 1000 = (d.day - 1) * msPerDay + time235959)) :=
  ⟨Or.inr (by decide), base_C1_min_range propsPlainMin (Or.inr (by decide))⟩

/-- C1 fails as stated: with `minDateExact` resolving to instant 5000 and
`maxDateExact` to instant 0, the resolved minimum `m = 5000` lies inside the
max-side synthesized range `[1000, ∞)`, so it is not true that `m` lies in no
synthesized range (the user list is empty, so every range of `disabledDates`
is synthesized). -/
theorem base_C1_cex :
    minBoundary propsInverted = some 5000 ∧
      Locale.normalizeDates propsInverted.disabledDates true = [] ∧
      (disabledDates propsInverted).any (fun r => inRange 5000 r) = true := by
  decide

/-- Props with only `maxDateExact`, carrying an explicit time-of-day. -/
def propsExactMax : BaseProps :=
  { emptyProps with maxDateExact := some ⟨19800, some 3600000⟩ }

/-- Props supplying both the exact and the plain variant on both sides. -/
def propsAllFour : BaseProps :=
  { emptyProps with
    minDateExact := some ⟨0, some 7000⟩
    minDate := some ⟨1, none⟩
    maxDateExact := some ⟨10, some 9000⟩
    maxDate := some ⟨11, none⟩ }

/-- C2: when a maximum boundary is present the computation appends exactly one
synthesized max-side range `(x + 1s, null)` with `x` the resolved maximum: the
exact value directly with no start/end-of-day snapping, or the plain `maxDate`
coerced to `23:59:59`; in particular for `maxDateExact = T` the range starts at
`T + 1s` exactly. -/
theorem base_C2_max_range (p : BaseProps)
    (h : p.maxDateExact.isSome ∨ p.maxDate.isSome) :
    ∃ x, maxBoundary p = some x ∧
      disabledDates p =
        Locale.normalizeDates p.disabledDates true ++ minPart p
          ++ [{ start := some (x + 1000), stop := none }] ∧
      (∀ d, p.maxDateExact = some d → x = Locale.normalizeDate d none) ∧
      (∀ d, p.maxDateExact = none → p.maxDate = some d → d.time = none →
        x = d.day * msPerDay + time235959) := by
  rcases hxe : p.maxDateExact with _ | d
  · rcases hxd : p.maxDate with _ | d'
    · rcases h with h | h <;> simp [hxe, hxd] at h
    · refine ⟨Locale.normalizeDate d' (some time235959), ?_, ?_, ?_, ?_⟩
      · simp [maxBoundary, hxe, hxd]
      · rw [disabledDates_eq]
        simp [maxPart, maxBoundary, hxe, hxd]
      · intro d hcontra
        simp at hcontra
      · intro d _ hxd' ht
        obtain rfl : d' = d := Option.some.inj hxd'
        simp [Locale.normalizeDate, ht, time235959]
  · refine ⟨Locale.normalizeDate d none, ?_, ?_, ?_, ?_⟩
    · simp [maxBoundary, hxe]
    · rw [disabledDates_eq]
      simp [maxPart, maxBoundary, hxe]
    · intro d' hd'
      obtain rfl : d = d' := Option.some.inj hd'
      rfl
    · intro d' hne _ _
      simp at hne

/-- Witness for C2 at the concrete `maxDateExact` props: `T` resolves to
`19800 * msPerDay + 3600000` and the range starts at `T + 1000` ms. -/
theorem base_C2_max_range_witness :
    (propsExactMax.maxDateExact.isSome ∨ propsExactMax.maxDate.isSome) ∧
      (∃ x, maxBoundary propsExactMax = some x ∧
        disabledDates propsExactMax =
          Locale.normalizeDates propsExactMax.disabledDates true ++ minPart propsExactMax
            ++ [{ start := some (x + 1000), stop := none }] ∧
        (∀ d, propsExactMax.maxDateExact = some d → x = Locale.normalizeDate d none) ∧
        (∀ d, propsExactMax.maxDateExact = none → propsExactMax.maxDate = some d →
          d.time = none → x = d.day * msPerDay + time235959)) :=
  ⟨Or.inl (by decide), base_C2_max_range propsExactMax (Or.inl (by decide))⟩

/-- C3: when both the exact and the plain variant of the same boundary side
are supplied, the synthesized range of that side is computed from the exact
variant resolved with no time-of-day coercion (`normalizeDate` with no time
option), and the plain variant does not enter the result. -/
theorem base_C3_exact_precedence (p : BaseProps) :
    (∀ d d', p.minDateExact = some d → p.minDate = some d' →
      disabledDates p =
        Locale.normalizeDates p.disabledDates true
          ++ [{ start := none, stop := some (Locale.normalizeDate d none - 1000) }]
          ++ maxPart p) ∧
    (∀ d d', p.maxDateExact = some d → p.maxDate = some d' →
      disabledDates p =
        Locale.normalizeDates p.disabledDates true ++ minPart p
          ++ [{ start := some (Locale.normalizeDate d none + 1000), stop := none }]) := by
  constructor
  · intro d d' hme hmd
    rw [disabledDates_eq]
    simp [minPart, minBoundary, hme]
  · intro d d' hxe hxd
    rw [disabledDates_eq]
    simp [maxPart, maxBoundary, hxe]

/-- Witness for C3 at props supplying all four boundary props. -/
theorem base_C3_exact_precedence_witness :
    disabledDates propsAllFour =
      Locale.normalizeDates propsAllFour.disabledDates true
        ++ [{ start := none,
              stop := some (Locale.normalizeDate ⟨0, some 7000⟩ none - 1000) }]
        ++ maxPart propsAllFour ∧
    disabledDates propsAllFour =
      Locale.normalizeDates propsAllFour.disabledDates true ++ minPart propsAllFour
        ++ [{ start := some (Locale.normalizeDate ⟨10, some 9000⟩ none + 1000),
              stop := none }] :=
  ⟨(base_C3_exact_precedence propsAllFour).1 ⟨0, some 7000⟩ ⟨1, none⟩ rfl rfl,
    (base_C3_exact_precedence propsAllFour).2 ⟨10, some 9000⟩ ⟨11, none⟩ rfl rfl⟩

/-- C4: with all four boundary props absent, `disabledDates` is exactly the
normalized user prop with no synthesized entries; if the `disabledDates` prop
is also absent the result is the empty list and the disabled attribute's
`dates` is empty. -/
theorem base_C4_no_boundaries (p : BaseProps)
    (h1 : p.minDate = none) (h2 : p.minDateExact = none)
    (h3 : p.maxDate = none) (h4 : p.maxDateExact = none) :
    disabledDates p = Locale.normalizeDates p.disabledDates true ∧
      (p.disabledDates = none →
        disabledDates p = [] ∧ (disabledAttribute p).dates = []) := by
  have he : disabledDates p = Locale.normalizeDates p.disabledDates true := by
    rw [disabledDates_eq]
    simp [minPart, maxPart, minBoundary, maxBoundary, h1, h2, h3, h4]
  refine ⟨he, fun hd => ?_⟩
  have hnil : disabledDates p = [] := by rw [he, hd]; rfl
  exact ⟨hnil, hnil⟩

/-- Witness for C4 at the all-absent props. -/
theorem base_C4_no_boundaries_witness :
    disabledDates emptyProps = Locale.normalizeDates emptyProps.disabledDates true ∧
      (emptyProps.disabledDates = none →
        disabledDates emptyProps = [] ∧ (disabledAttribute emptyProps).dates = []) :=
  base_C4_no_boundaries emptyProps rfl rfl rfl rfl

/-- Props whose minimum resolves two seconds after the maximum. -/
def propsGapless : BaseProps :=
  { emptyProps with
    minDateExact := some ⟨0, some 2000⟩
    maxDateExact := some ⟨0, some 0⟩ }

/-- Props whose minimum resolves one millisecond after the maximum. -/
def propsBarelyInverted : BaseProps :=
  { emptyProps with
    minDateExact := some ⟨0, some 1⟩
    maxDateExact := some ⟨0, some 0⟩ }

/-- A concrete published context for the `useBase` tests. -/
def sampleContext : BaseContext :=
  { disabledDates := disabledDates emptyProps
    availableDates := availableDates emptyProps
    disabledAttribute := disabledAttribute emptyProps }

/-- C5: `availableDates` is the normalization of the raw prop with the all-day
flag off, and with the all-day flag off a timed range spec keeps its exact
start and end instants (no day-boundary coercion). -/
theorem base_C5_available (p : BaseProps) :
    availableDates p = Locale.normalizeDates p.availableDates false ∧
      (∀ s e : PlainDate,
        Locale.normalizeDates (some [DateSpec.range (some s) (some e)]) false =
          [{ start := some (Locale.normalizeDate s none),
             stop := some (Locale.normalizeDate e none) }]) :=
  ⟨rfl, fun _ _ => rfl⟩

/-- C6: the composed disabled attribute has `dates = disabledDates`,
`excludeDates = availableDates`, `excludeMode = "includes"` and `order = 100`,
for every input. -/
theorem base_C6_attribute (p : BaseProps) :
    (disabledAttribute p).key = "disabled" ∧
      (disabledAttribute p).dates = disabledDates p ∧
      (disabledAttribute p).excludeDates = availableDates p ∧
      (disabledAttribute p).excludeMode = "includes" ∧
      (disabledAttribute p).order = 100 :=
  ⟨rfl, rfl, rfl, rfl, rfl⟩

/-- C7: `disabledDates` is the normalized user entries followed by the
synthesized min-side range and then the max-side range, and its length is the
number of user entries plus one per boundary side present (zero synthesized
entries when no boundary is present). -/
theorem base_C7_composition (p : BaseProps) :
    disabledDates p =
      Locale.normalizeDates p.disabledDates true ++ minPart p ++ maxPart p ∧
      (disabledDates p).length =
        (Locale.normalizeDates p.disabledDates true).length
          + (if p.minDateExact.isSome || p.minDate.isSome then 1 else 0)
          + (if p.maxDateExact.isSome || p.maxDate.isSome then 1 else 0) := by
  refine ⟨disabledDates_eq p, ?_⟩
  rw [disabledDates_eq]
  cases hb1 : (p.minDateExact.isSome || p.minDate.isSome) <;>
    cases hb2 : (p.maxDateExact.isSome || p.maxDate.isSome) <;>
      simp [minPart, maxPart, minBoundary, maxBoundary, hb1, hb2]

/-- C8 (amended): when both boundaries are present and the minimum resolves at
least two seconds later than the maximum, every instant lies in one of the two
synthesized ranges, so every instant of `disabledDates` is covered; when the
inversion is by less than two seconds a gap remains (see the counterexample). -/
theorem base_C8_inverted_covers (p : BaseProps) (m x : Instant)
    (hm : minBoundary p = some m) (hx : maxBoundary p = some x)
    (hgap : x + 2000 ≤ m) :
    ∀ t : Instant, ∃ r ∈ disabledDates p, inRange t r = true := by
  intro t
  rw [disabledDates_eq]
  by_cases hc : t ≤ m - 1000
  · refine ⟨{ start := none, stop := some (m - 1000) }, ?_, ?_⟩
    · simp [minPart, hm]
    · simp [inRange, hc]
  · refine ⟨{ start := some (x + 1000), stop := none }, ?_, ?_⟩
    · simp [maxPart, hx]
    · have hge : x + 1000 ≤ t := by linarith [not_le.mp hc]
      simp [inRange, hge]

/-- Witness for C8 at a minimum two seconds past the maximum. -/
theorem base_C8_inverted_covers_witness :
    minBoundary propsGapless = some 2000 ∧ maxBoundary propsGapless = some 0 ∧
      (0 : Int) + 2000 ≤ 2000 ∧
      ∃ r ∈ disabledDates propsGapless, inRange 500 r = true :=
  ⟨by decide, by decide, by decide,
    base_C8_inverted_covers propsGapless 2000 0 (by decide) (by decide) (by decide) 500⟩

/-- C8 fails as stated: with the minimum resolving to instant 1 and the
maximum to instant 0 the minimum is later than the maximum, yet instant 0 lies
in none of the ranges of `disabledDates` (the synthesized ranges end at -999
and start at 1000, leaving a gap). -/
theorem base_C8_cex :
    minBoundary propsBarelyInverted = some 1 ∧
      maxBoundary propsBarelyInverted = some 0 ∧ (0 : Int) < 1 ∧
      (disabledDates propsBarelyInverted).all (fun r => !(inRange 0 r)) = true := by
  decide

/-- C9: `useBase` returns the injected context unchanged when one is present
and throws the descriptive error exactly when none is present, never
defaulting: an ok result always carries the injected context. -/
theorem base_C9_useBase (injected : Option BaseContext) :
    (∀ c, injected = some c → useBase injected = Except.ok c) ∧
      (injected = none → useBase injected =
        Except.error
          "Base context missing. Please verify this component is nested within a valid context provider.") ∧
      (∀ c, useBase injected = Except.ok c → injected = some c) := by
  cases injected <;> simp [useBase]

/-- Witness for C9 at a present and at an absent context. -/
theorem base_C9_useBase_witness :
    useBase (some sampleContext) = Except.ok sampleContext ∧
      useBase (none : Option BaseContext) =
        Except.error
          "Base context missing. Please verify this component is nested within a valid context provider." :=
  ⟨(base_C9_useBase (some sampleContext)).1 sampleContext rfl,
    (base_C9_useBase none).2.1 rfl⟩

/-- C10: a pre-built `Locale` instance prop is returned as-is, with the
`firstDayOfWeek`, `masks` and `timezone` props ignored; a config-object prop is
used directly as the locale config without merging `firstDayOfWeek`/`masks`;
those props enter the config only when the locale prop is a string identifier
or absent. -/
theorem base_C10_locale (p : BaseProps) :
    (∀ l, computeLocale { p with locale := LocaleProp.inst l } = l) ∧
      (∀ cfg, computeLocale { p with locale := LocaleProp.config cfg } =
        Locale.new cfg p.timezone) ∧
      (∀ s, computeLocale { p with locale := LocaleProp.str s } =
        Locale.new
          { id := some s, firstDayOfWeek := p.firstDayOfWeek, masks := p.masks }
          p.timezone) ∧
      (computeLocale { p with locale := LocaleProp.absent } =
        Locale.new
          { id := none, firstDayOfWeek := p.firstDayOfWeek, masks := p.masks }
          p.timezone) :=
  ⟨fun _ => rfl, fun _ => rfl, fun _ => rfl, rfl⟩
